import Mathlib

/-!
Shallow embedding of the goptions command-line flag library (flag.go and the
annotation grammar file) together with proofs about its behaviour.

Go strings are modelled as lists of characters; all inputs of interest are in
the ASCII range, where Go byte indexing and character indexing agree.
Fallible operations return `Option` or `Except`; a Go runtime panic is
modelled as `Option.none` (or a dedicated error constructor, noted locally).
-/

set_option maxRecDepth 4000

namespace Goptions

/-- Model of a Go string: a list of characters (bytes in the ASCII range). -/
abbrev GoStr := List Char

/-- Convenience conversion from a Lean string literal to a modelled Go string. -/
def gs (s : String) : GoStr := s.toList

/-- Model of strings.HasPrefix from the Go standard library. -/
def startsWith : GoStr → GoStr → Bool
  | [], _ => true
  | _ :: _, [] => false
  | p :: ps, c :: cs => p == c && startsWith ps cs

/-- isShort from flag.go: a single leading dash that is not a double dash. -/
def isShort (arg : GoStr) : Bool :=
  startsWith (gs "-") arg && !(startsWith (gs "--") arg)

/-- isLong from flag.go: a double leading dash. -/
def isLong (arg : GoStr) : Bool :=
  startsWith (gs "--") arg

/-- Character class [[:word:]-] used by the annotation grammar regular
expression: ASCII letters, digits, underscore, and the dash. -/
def isWordDash (c : Char) : Bool :=
  c.isAlphanum || c == '_' || c == '-'

/-- Whitespace as recognized by unicode.IsSpace (used by strings.TrimSpace). -/
def isGoSpace (c : Char) : Bool :=
  c == ' ' || c == '\t' || c == '\n' || c == '\x0b' || c == '\x0c' || c == '\r' ||
  c == '\u0085' || c == ' ' || c == ' ' ||
  (' ' ≤ c && c ≤ ' ') ||
  c == ' ' || c == ' ' || c == ' ' || c == ' ' || c == '　'

/-- Remove leading whitespace (half of strings.TrimSpace). -/
def trimLeft (s : GoStr) : GoStr :=
  s.dropWhile isGoSpace

/-- Remove trailing whitespace (the other half of strings.TrimSpace). -/
def trimRight (s : GoStr) : GoStr :=
  s.rdropWhile isGoSpace

/-- Model of strings.TrimSpace. -/
def trimSpace (s : GoStr) : GoStr :=
  trimLeft (trimRight s)

/-- Length of the maximal leading run of [[:word:]-] characters. -/
def wrunFrom (s : GoStr) : Nat :=
  (s.takeWhile isWordDash).length

/-- The trailing (?:,|$) of the option regular expression applied to the
suffix after the captured group: returns how many characters it consumes. -/
def termLen : GoStr → Option Nat
  | [] => some 0
  | c :: _ => if c == ',' then some 1 else none

/-- Backtracking matcher for the quoted-value tail of the option regular
expression. The input is the suffix right after the opening single quote; we
are inside the plus-closure over the atoms (backslash followed by any
non-newline character, in preference order before: any non-quote character),
having consumed at least one atom already. The matcher prefers a further
iteration over stopping, mirroring a leftmost-first backtracking search. It
succeeds when it can stop at a single quote that is followed by a comma or
the end of the string, and returns the suffix starting at that closing
quote. -/
def qRun : GoStr → Option GoStr
  | [] => none
  | '\\' :: rest =>
    (match rest with
     | c2 :: rest2 => if c2 == '\n' then none else qRun rest2
     | [] => none).orElse
    (fun _ => qRun rest)
  | '\'' :: rest =>
    if rest.isEmpty || rest.head? == some ',' then some ('\'' :: rest) else none
  | _ :: rest => qRun rest

/-- The mandatory first atom of the plus-closure, then `qRun`. -/
def qPlusRun : GoStr → Option GoStr
  | [] => none
  | '\\' :: rest =>
    (match rest with
     | c2 :: rest2 => if c2 == '\n' then none else qRun rest2
     | [] => none).orElse
    (fun _ => qRun rest)
  | '\'' :: _ => none
  | _ :: rest => qRun rest

/-- A match result of the option regular expression at the start of the
string: overall match length (including a trailing comma when present, Go
index idx[1]), the end of capture group 1 (Go idx[3]; the group starts at 0),
and the optional span of capture group 2 (Go idx[4], idx[5]). -/
abbrev OMatch := Nat × Nat × Option (Nat × Nat)

/-- First alternative of the option regular expression: a dash flag
(one or two dashes followed by at least one [[:word:]-] character). A
backtracking search over this alternative succeeds exactly at the end of the
maximal [[:word:]-] run after the first dash, because any shorter candidate
end is followed by a [[:word:]-] character, never by a comma or the end. -/
def goA (s : GoStr) : Option OMatch :=
  if s.take 1 = ['-'] then
    if wrunFrom (s.drop 1) = 0 then none
    else
      match termLen (s.drop (1 + wrunFrom (s.drop 1))) with
      | some tl =>
        some (1 + wrunFrom (s.drop 1) + tl, 1 + wrunFrom (s.drop 1), none)
      | none => none
  else none

/-- Second alternative: a bare [[:word:]-] word. As above, only the maximal
run can be followed by a comma or the end of the string. -/
def goB (s : GoStr) : Option OMatch :=
  if wrunFrom s = 0 then none
  else
    match termLen (s.drop (wrunFrom s)) with
    | some tl => some (wrunFrom s + tl, wrunFrom s, none)
    | none => none

/-- Third alternative: a [[:word:]-] word, an equals sign, and a
single-quoted value whose content (capture group 2) is matched by
`qPlusRun`. -/
def goC (s : GoStr) : Option OMatch :=
  if wrunFrom s = 0 then none
  else if (s.drop (wrunFrom s)).take 2 = ['=', '\''] then
    match qPlusRun (s.drop (wrunFrom s + 2)) with
    | some lq =>
      some (wrunFrom s + 2 + ((s.drop (wrunFrom s + 2)).length - lq.length) + 1 +
          (if lq.drop 1 = [] then 0 else 1),
        wrunFrom s + 2 + ((s.drop (wrunFrom s + 2)).length - lq.length) + 1,
        some (wrunFrom s + 2,
          wrunFrom s + 2 + ((s.drop (wrunFrom s + 2)).length - lq.length)))
    | none => none
  else none

/-- Model of optionRegexp.FindStringSubmatchIndex: the regular expression is
anchored, and its three alternatives are tried in order (leftmost-first
semantics of the Go regexp package). -/
def optionMatch (s : GoStr) : Option OMatch :=
  match goA s with
  | some r => some r
  | none =>
    match goB s with
    | some r => some r
    | none => goC s

/-- The flag descriptor built by parseTag (the unexported struct named flag
in the source). -/
structure flag where
  Short : List GoStr
  Long : List GoStr
  MutexGroup : GoStr
  Description : GoStr
  Accumulate : Bool
  Obligatory : Bool
deriving DecidableEq, Repr

/-- Errors produced by parseTag. The constructor `panicked` models a Go
runtime panic (an out-of-range slice of the option text when capture group 2
is absent) and `fuelOut` models exhaustion of the recursion fuel; both are
proved unreachable below. -/
inductive TagError where
  | noMatch (rem : GoStr)
  | unknownOption (opt : GoStr)
  | panicked
  | fuelOut
deriving DecidableEq, Repr

/-- One consumption loop of parseTag, with explicit fuel. Each successful
regular-expression match consumes at least one character, so fuel exceeding
the length of the string is enough; this is proved below. -/
def parseTagLoopF : Nat → flag → GoStr → Except TagError flag
  | 0, _, _ => .error .fuelOut
  | n + 1, f, tag0 =>
    if trimSpace tag0 = [] then .ok f
    else
      match optionMatch (trimSpace tag0) with
      | none => .error (.noMatch (trimSpace tag0))
      | some (fin, g1e, g2) =>
        if startsWith (gs "--") ((trimSpace tag0).take g1e) then
          parseTagLoopF n
            { f with Long := f.Long ++ [((trimSpace tag0).take g1e).drop 2] }
            ((trimSpace tag0).drop fin)
        else if startsWith (gs "-") ((trimSpace tag0).take g1e) then
          parseTagLoopF n
            { f with Short := f.Short ++ [((trimSpace tag0).take g1e).drop 1] }
            ((trimSpace tag0).drop fin)
        else if startsWith (gs "description=") ((trimSpace tag0).take g1e) then
          match g2 with
          | some (a, b) =>
            parseTagLoopF n
              { f with Description := ((((trimSpace tag0).take g1e).take b).drop a) }
              ((trimSpace tag0).drop fin)
          | none => .error .panicked
        else if startsWith (gs "mutexgroup=") ((trimSpace tag0).take g1e) then
          match g2 with
          | some (a, b) =>
            parseTagLoopF n
              { f with MutexGroup := ((((trimSpace tag0).take g1e).take b).drop a) }
              ((trimSpace tag0).drop fin)
          | none => .error .panicked
        else if (trimSpace tag0).take g1e = gs "accumulate" then
          parseTagLoopF n { f with Accumulate := true } ((trimSpace tag0).drop fin)
        else if (trimSpace tag0).take g1e = gs "obligatory" then
          parseTagLoopF n { f with Obligatory := true } ((trimSpace tag0).drop fin)
        else .error (.unknownOption ((trimSpace tag0).take g1e))

/-- Model of parseTag from the annotation grammar file. -/
def parseTag (tag : GoStr) : Except TagError flag :=
  parseTagLoopF (tag.length + 1) ⟨[], [], [], [], false, false⟩ tag

/-- A matched option token that the parseTag dispatch recognizes: a dash
token, a description or mutexgroup assignment, or one of the two keywords. -/
def recognizedOption (w : GoStr) : Bool :=
  startsWith (gs "--") w || startsWith (gs "-") w ||
  startsWith (gs "description=") w || startsWith (gs "mutexgroup=") w ||
  w == gs "accumulate" || w == gs "obligatory"

/-- All leading tokens of the annotation string are recognized (with fuel,
like the loop itself). -/
def allRecognizedF : Nat → GoStr → Bool
  | 0, _ => false
  | n + 1, tag0 =>
    if trimSpace tag0 = [] then true
    else
      match optionMatch (trimSpace tag0) with
      | none => false
      | some (fin, g1e, _) =>
        recognizedOption ((trimSpace tag0).take g1e) &&
          allRecognizedF n ((trimSpace tag0).drop fin)

/-- Every comma-separated token of the annotation string is matched by the
grammar and recognized by the dispatch. -/
def allRecognized (tag : GoStr) : Bool :=
  allRecognizedF (tag.length + 1) tag

/-- Model of a type implementing the Marshaler interface, as used by
Flag.setValue: the method MarshalGoption is always invoked on a freshly
constructed instance (reflect.New, a zero value, allocating through one
pointer indirection when the type is itself a pointer). `marshal s` returns
the state of that fresh instance after the call together with the returned
error (an abstract numeric code). The Marshaler interface itself is declared
outside flag.go; only this observable behaviour is needed here. -/
structure MarshalerSpec where
  marshal : GoStr → Nat × Option Nat

/-- Model of the reflect.Value backing a flag: the closed set of field
shapes flag.go distinguishes. `bool`, `str`, `int` and `help` are the four
types registered in parserMap (Help is a distinct named type declared
outside flag.go). `marshaler` is any type implementing Marshaler, with its
current abstract value; `unsupported` is any other type. The `sliceKind`
argument records whether reflect Kind of the type is Slice (IsMulti). -/
inductive FlagValue where
  | bool (b : Bool)
  | str (s : GoStr)
  | int (n : Int)
  | help
  | marshaler (sliceKind : Bool) (m : MarshalerSpec) (cur : Nat)
  | unsupported (sliceKind : Bool) (typeName : GoStr)

/-- Errors produced by the flag.go side of the library. `helpRequest` is the
sentinel ErrHelpRequest; `marshalErr` wraps the error code returned by a
MarshalGoption call; `intSyntax` and `intRange` are the two strconv error
kinds. -/
inductive GoErr where
  | needsArg (name : GoStr)
  | onlyOnce (name : GoStr)
  | intSyntax (s : GoStr)
  | intRange (s : GoStr)
  | helpRequest
  | unsupportedType (typeName : GoStr)
  | marshalErr (code : Nat)
deriving DecidableEq, Repr

/-- Numeric value of a list of decimal digit characters. -/
def digitsVal (ds : GoStr) : Nat :=
  ds.foldl (fun a c => a * 10 + (c.toNat - 48)) 0

/-- Leading sign handling of strconv.ParseInt: returns the negativity flag
and the remaining digit characters. -/
def stripSign (s : GoStr) : Bool × GoStr :=
  if s.take 1 = ['+'] then (false, s.drop 1)
  else if s.take 1 = ['-'] then (true, s.drop 1)
  else (false, s)

/-- Model of strconv.ParseInt(s, 10, 64): an optional sign followed by at
least one decimal digit, with the result required to fit in a signed 64-bit
integer (ErrRange otherwise, ErrSyntax for malformed input). -/
def parseInt64 (s : GoStr) : Except GoErr Int :=
  if (stripSign s).2 = [] || !((stripSign s).2.all Char.isDigit) then
    .error (.intSyntax s)
  else if (stripSign s).1 then
    if digitsVal (stripSign s).2 ≤ 2 ^ 63 then .ok (-(digitsVal (stripSign s).2 : Int))
    else .error (.intRange s)
  else
    if digitsVal (stripSign s).2 ≤ 2 ^ 63 - 1 then .ok (digitsVal (stripSign s).2 : Int)
    else .error (.intRange s)

/-- Model of boolValueParser: sets the field to true, ignoring the string. -/
def boolValueParser (_v : FlagValue) (_val : GoStr) : FlagValue × Option GoErr :=
  (.bool true, none)

/-- Model of stringValueParser: assigns the raw string verbatim. -/
def stringValueParser (_v : FlagValue) (val : GoStr) : FlagValue × Option GoErr :=
  (.str val, none)

/-- Model of intValueParser: parses base-10 via strconv.ParseInt with bit
size 64 and assigns on success (the Go int of the source platform is
64 bits wide). On error the field is left unchanged. -/
def intValueParser (v : FlagValue) (val : GoStr) : FlagValue × Option GoErr :=
  match parseInt64 val with
  | .ok n => (.int n, none)
  | .error e => (v, some e)

/-- Model of helpValueParser: always returns ErrHelpRequest, writing
nothing. -/
def helpValueParser (v : FlagValue) (_val : GoStr) : FlagValue × Option GoErr :=
  (v, some .helpRequest)

/-- Model of Flag.setValue: a Marshaler-implementing type is handled first
(a fresh instance is constructed, MarshalGoption is invoked on it, and the
field is overwritten with the instance regardless of the returned error);
otherwise the parser registered in parserMap for the exact field type runs,
and a type with neither yields the unsupported-flag-type error. The result
pairs the new field value with the returned error. -/
def setValue (v : FlagValue) (s : GoStr) : FlagValue × Option GoErr :=
  match v with
  | .marshaler sk m _ =>
    let r := m.marshal s
    (.marshaler sk m r.1, r.2.map GoErr.marshalErr)
  | .bool b => boolValueParser (.bool b) s
  | .str s0 => stringValueParser (.str s0) s
  | .int n => intValueParser (.int n) s
  | .help => helpValueParser .help s
  | .unsupported sk tn => (.unsupported sk tn, some (.unsupportedType tn))

/-- Model of the exported Flag struct of flag.go. -/
structure Flag where
  Short : GoStr
  Long : GoStr
  MutexGroups : List GoStr
  Description : GoStr
  Obligatory : Bool
  WasSpecified : Bool
  value : FlagValue

/-- Whether the reflect type of the field is exactly bool. -/
def FlagValue.isBoolType : FlagValue → Bool
  | .bool _ => true
  | _ => false

/-- Whether the field value asserts to the Help marker type. -/
def FlagValue.isHelpType : FlagValue → Bool
  | .help => true
  | _ => false

/-- Whether the reflect Kind of the field type is Slice. -/
def FlagValue.kindIsSlice : FlagValue → Bool
  | .marshaler sk _ _ => sk
  | .unsupported sk _ => sk
  | _ => false

/-- Model of Flag.Name: the long name with two dashes is preferred, then the
short name with one dash, then a fixed placeholder. -/
def Flag.Name (f : Flag) : GoStr :=
  if 0 < f.Long.length then gs "--" ++ f.Long
  else if 0 < f.Short.length then gs "-" ++ f.Short
  else gs "<unspecified>"

/-- Model of Flag.NeedsExtraValue: false exactly for a bool-typed field and
for the Help marker type. -/
def Flag.NeedsExtraValue (f : Flag) : Bool :=
  if f.value.isBoolType then false
  else if f.value.isHelpType then false
  else true

/-- Model of Flag.IsMulti: true iff the field has Slice kind. -/
def Flag.IsMulti (f : Flag) : Bool :=
  f.value.kindIsSlice

/-- Model of Flag.Handles. Go evaluates the two disjuncts left to right with
short-circuiting; the slice arg[1:2] panics (modelled as none) when the
argument is shorter than two bytes, which isShort does not rule out. The
slice arg[2:] in the second disjunct is only reached when isLong holds, so
it is always in bounds. -/
def Flag.Handles (f : Flag) (arg : GoStr) : Option Bool :=
  if isShort arg then
    if arg.length < 2 then none
    else if (arg.take 2).drop 1 = f.Short then some true
    else if isLong arg then some ((arg.drop 2) == f.Long)
    else some false
  else if isLong arg then some ((arg.drop 2) == f.Long)
  else some false

/-- Model of Flag.Parse. The result is the mutated flag, the returned
argument slice and the returned error; none models the index panic of
args[0] on an empty argument list (and of args[1], which is unreachable
because of the needs-argument precondition). -/
def Flag.Parse (f : Flag) (args : List GoStr) : Option (Flag × List GoStr × Option GoErr) :=
  match args with
  | [] => none
  | param :: rest =>
    if f.NeedsExtraValue &&
        (decide ((param :: rest).length < 2) ||
          (isShort param && decide (2 < param.length))) then
      some (f, param :: rest, some (.needsArg f.Name))
    else if f.WasSpecified && !f.IsMulti then
      some (f, param :: rest, some (.onlyOnce f.Name))
    else if isShort param && decide (2 < param.length) then
      let r := setValue f.value []
      some ({ f with WasSpecified := true, value := r.1 },
            (gs "-" ++ param.drop 2) :: rest, r.2)
    else if f.NeedsExtraValue then
      match rest with
      | [] => none
      | value :: rest2 =>
        let r := setValue f.value value
        some ({ f with WasSpecified := true, value := r.1 }, rest2, r.2)
    else
      let r := setValue f.value []
      some ({ f with WasSpecified := true, value := r.1 }, rest, r.2)

/-- A fresh boolean flag with the given short name, as the flag-set
construction would build it for a bool struct field. -/
def mkBoolFlag (sh : String) : Flag :=
  { Short := gs sh, Long := [], MutexGroups := [], Description := [],
    Obligatory := false, WasSpecified := false, value := .bool false }

/-- Specification-side notion for the integer converter claim: an optionally
signed base-10 numeral (at least one digit after the optional sign). -/
def isDecimalNumeral (s : GoStr) : Bool :=
  if s.take 1 = ['+'] || s.take 1 = ['-'] then
    !(s.drop 1).isEmpty && (s.drop 1).all Char.isDigit
  else
    !s.isEmpty && s.all Char.isDigit

/-- Specification-side mathematical value of an optionally signed base-10
numeral. -/
def numeralVal (s : GoStr) : Int :=
  if s.take 1 = ['-'] then -(digitsVal (s.drop 1) : Int)
  else if s.take 1 = ['+'] then (digitsVal (s.drop 1) : Int)
  else (digitsVal s : Int)

/-- A Marshaler model whose conversion always fails, leaving the abstract
value 42 in the freshly constructed instance and returning error code 7. -/
def failingMarshaler : MarshalerSpec :=
  ⟨fun _ => (42, some 7)⟩

/-- The descriptor built from the sample annotation of the spec: short name
n, long name name, description User name, obligatory. -/
def sampleDescriptor : flag :=
  ⟨[gs "n"], [gs "name"], [], gs "User name", false, true⟩

/-! Helper lemmas. -/

theorem parseInt64_error_shape (s : GoStr) (e : GoErr) (h : parseInt64 s = .error e) :
    e = .intSyntax s ∨ e = .intRange s := by
  unfold parseInt64 at h
  split_ifs at h <;> simp_all

theorem setValue_ne_precondition_errors (v : FlagValue) (s nm : GoStr) :
    (setValue v s).2 ≠ some (.needsArg nm) ∧ (setValue v s).2 ≠ some (.onlyOnce nm) := by
  cases v with
  | marshaler sk m cur =>
    simp only [setValue]
    cases (m.marshal s).2 <;> simp
  | int n =>
    simp only [setValue, intValueParser]
    cases h : parseInt64 s with
    | ok k => simp
    | error e =>
      rcases parseInt64_error_shape s e h with h2 | h2 <;> subst h2 <;> simp
  | _ => simp [setValue, boolValueParser, stringValueParser, helpValueParser]

/-- C2: for a flag needing an extra value, Parse fails with the
needs-argument error exactly when fewer than two arguments remain or the
current token is a short cluster of more than two characters, and on that
failure the flag and the argument list are returned unchanged. -/
theorem parse_needs_argument_iff (f : Flag) (param : GoStr) (rest : List GoStr)
    (hnev : f.NeedsExtraValue = true) :
    ((∃ f2 r e, f.Parse (param :: rest) = some (f2, r, some (.needsArg e))) ↔
      ((param :: rest).length < 2 ∨ (isShort param = true ∧ 2 < param.length)))
    ∧ (((param :: rest).length < 2 ∨ (isShort param = true ∧ 2 < param.length)) →
        f.Parse (param :: rest) = some (f, param :: rest, some (.needsArg f.Name))) := by
  by_cases hc : (param :: rest).length < 2 ∨ (isShort param = true ∧ 2 < param.length)
  · have hb : (f.NeedsExtraValue &&
        (decide ((param :: rest).length < 2) ||
          (isShort param && decide (2 < param.length)))) = true := by
      rw [hnev, Bool.true_and]
      rcases hc with h | ⟨hsh, hln⟩
      · have hd : decide ((param :: rest).length < 2) = true := by simpa using h
        rw [hd, Bool.true_or]
      · have hd : decide (2 < param.length) = true := by simpa using hln
        rw [hsh, hd]
        simp
    have hp : f.Parse (param :: rest) = some (f, param :: rest, some (.needsArg f.Name)) := by
      simp only [Flag.Parse, hb]
      simp
    exact ⟨⟨fun _ => hc, fun _ => ⟨f, param :: rest, f.Name, hp⟩⟩, fun _ => hp⟩
  · refine ⟨⟨?_, fun h => absurd h hc⟩, fun h => absurd h hc⟩
    rintro ⟨f2, r, e, hp⟩
    push_neg at hc
    obtain ⟨hlen, hcl⟩ := hc
    simp only [Flag.Parse] at hp
    split_ifs at hp with h1 h2 h3
    · -- the needs-argument branch: its condition contradicts hc
      simp only [hnev, Bool.true_and, Bool.or_eq_true, Bool.and_eq_true,
        decide_eq_true_eq] at h1
      rcases h1 with h | ⟨hsh, hln⟩
      · omega
      · exact absurd hln (by simpa using hcl hsh)
    · -- the only-once branch returns a different error constructor
      simp at hp
    · -- the cluster branch: contradicts hc
      simp only [Bool.and_eq_true, decide_eq_true_eq] at h3
      exact absurd h3.2 (by simpa using hcl h3.1)
    · -- the extra-value branch: the error comes from setValue
      cases rest with
      | nil => exact Option.noConfusion hp
      | cons v rest2 =>
        simp only [Option.some_inj, Prod.mk.injEq] at hp
        exact ((setValue_ne_precondition_errors f.value v e).1 hp.2.2).elim

/-- Witness for C2 at a concrete input: a string-backed long flag given
without a following value fails with the needs-argument error. -/
theorem parse_needs_argument_iff_witness :
    ({ mkBoolFlag "n" with Long := gs "name", value := .str [] } : Flag).Parse [gs "--name"] =
      some ({ mkBoolFlag "n" with Long := gs "name", value := .str [] }, [gs "--name"],
        some (.needsArg (gs "--name"))) :=
  (parse_needs_argument_iff
    { mkBoolFlag "n" with Long := gs "name", value := .str [] }
    (gs "--name") [] rfl).2 (Or.inl (by decide))

/-- C5 (amended): a single-valued flag that was already specified fails with
the already-specified error whenever the needs-argument precondition does
not fire, returning the flag and argument list unchanged; a multi-valued
flag never produces the already-specified error (the outcome is then that
of value conversion, which never appends). -/
theorem parse_already_specified :
    (∀ (f : Flag) (param : GoStr) (rest : List GoStr),
      f.WasSpecified = true → f.IsMulti = false →
      ¬(f.NeedsExtraValue = true ∧
        ((param :: rest).length < 2 ∨ (isShort param = true ∧ 2 < param.length))) →
      f.Parse (param :: rest) = some (f, param :: rest, some (.onlyOnce f.Name)))
    ∧ (∀ (f : Flag) (args : List GoStr) (res : Flag × List GoStr × Option GoErr),
      f.IsMulti = true → f.Parse args = some res →
      ∀ nm, res.2.2 ≠ some (.onlyOnce nm)) := by
  constructor
  · intro f param rest hw hm hc
    simp only [Flag.Parse]
    split_ifs with h1 h2
    · exfalso
      apply hc
      simpa using h1
    · rfl
    all_goals
      exfalso
      apply h2
      simp [hw, hm]
  · intro f args res hm hp nm
    cases args with
    | nil => exact Option.noConfusion hp
    | cons param rest =>
      simp only [Flag.Parse] at hp
      split_ifs at hp with h1 h2 h3 h4
      · rw [Option.some_inj] at hp
        subst hp
        simp
      · exfalso
        rw [hm] at h2
        simp at h2
      · rw [Option.some_inj] at hp
        subst hp
        exact (setValue_ne_precondition_errors f.value [] nm).2
      · cases rest with
        | nil => exact Option.noConfusion hp
        | cons v rest2 =>
          rw [Option.some_inj] at hp
          subst hp
          exact (setValue_ne_precondition_errors f.value v nm).2
      · rw [Option.some_inj] at hp
        subst hp
        exact (setValue_ne_precondition_errors f.value [] nm).2

/-- Witness for C5 at a concrete input: a bool flag specified twice. -/
theorem parse_already_specified_witness :
    ({ mkBoolFlag "a" with WasSpecified := true } : Flag).Parse [gs "-a"] =
      some ({ mkBoolFlag "a" with WasSpecified := true }, [gs "-a"],
        some (.onlyOnce (gs "-a"))) :=
  parse_already_specified.1 { mkBoolFlag "a" with WasSpecified := true }
    (gs "-a") [] rfl rfl (by intro h; exact absurd h.1 (by decide))

/-- C5 counterexample to the claim as stated: a multi-valued (slice-kind)
flag that was already specified does not have its parsed value appended; for
a slice type without a Marshaler implementation the call does not even
succeed, it fails with the unsupported-flag-type error. -/
theorem parse_multi_no_append_cex :
    ({ mkBoolFlag "s" with
        WasSpecified := true,
        value := .unsupported true (gs "[]string") } : Flag).IsMulti = true
    ∧ ({ mkBoolFlag "s" with
        WasSpecified := true,
        value := .unsupported true (gs "[]string") } : Flag).WasSpecified = true
    ∧ ({ mkBoolFlag "s" with
        WasSpecified := true,
        value := .unsupported true (gs "[]string") } : Flag).Parse [gs "-s", gs "x"] =
        some ({ mkBoolFlag "s" with
            WasSpecified := true,
            value := .unsupported true (gs "[]string") }, [],
          some (.unsupportedType (gs "[]string"))) :=
  ⟨rfl, rfl, rfl⟩

/-- C4: when the backing field implements Marshaler and the conversion
fails, setValue still overwrites the field with the freshly constructed
instance before returning the error; the previous field value does not
influence the result at all. -/
theorem setValue_marshaler_overwrites_on_error (sk : Bool) (m : MarshalerSpec)
    (cur cur2 : Nat) (s : GoStr) (e : Nat) (he : (m.marshal s).2 = some e) :
    setValue (.marshaler sk m cur) s =
      (.marshaler sk m (m.marshal s).1, some (.marshalErr e))
    ∧ setValue (.marshaler sk m cur) s = setValue (.marshaler sk m cur2) s := by
  constructor
  · simp [setValue, he]
  · simp [setValue]

/-- Witness for C4 at a concrete input: a failing Marshaler conversion
overwrites the old abstract value 5 with the fresh instance value 42. -/
theorem setValue_marshaler_overwrites_on_error_witness :
    setValue (.marshaler false failingMarshaler 5) [] =
      (.marshaler false failingMarshaler 42, some (.marshalErr 7))
    ∧ setValue (.marshaler false failingMarshaler 5) [] =
      setValue (.marshaler false failingMarshaler 6) [] :=
  setValue_marshaler_overwrites_on_error false failingMarshaler 5 6 [] 7 rfl

/-- C1 (amended): for a flag that needs no extra value and is not blocked by
the already-specified check, Parse on a short cluster of more than two
characters rewrites the first token to a dash followed by the cluster minus
its first two characters, returning a list of the same length; iterated over
fresh boolean flags a, b, c, the input -abc sets all three. -/
theorem parse_short_cluster :
    (∀ (f : Flag) (param : GoStr) (rest : List GoStr),
      f.NeedsExtraValue = false → (f.WasSpecified = false ∨ f.IsMulti = true) →
      isShort param = true → 2 < param.length →
      f.Parse (param :: rest) =
        some ({ f with WasSpecified := true, value := (setValue f.value []).1 },
          (gs "-" ++ param.drop 2) :: rest, (setValue f.value []).2)
      ∧ ((gs "-" ++ param.drop 2) :: rest).length = (param :: rest).length)
    ∧ ((mkBoolFlag "a").Parse [gs "-abc"] =
        some ({ mkBoolFlag "a" with WasSpecified := true, value := .bool true },
          [gs "-bc"], none)
      ∧ (mkBoolFlag "b").Parse [gs "-bc"] =
        some ({ mkBoolFlag "b" with WasSpecified := true, value := .bool true },
          [gs "-c"], none)
      ∧ (mkBoolFlag "c").Parse [gs "-c"] =
        some ({ mkBoolFlag "c" with WasSpecified := true, value := .bool true },
          [], none)) := by
  refine ⟨?_, rfl, rfl, rfl⟩
  intro f param rest hnev hw hsh hln
  simp only [Flag.Parse]
  split_ifs with h1 h2 h3
  · exfalso
    rw [hnev] at h1
    simp at h1
  · exfalso
    rcases hw with hw | hw
    · rw [hw] at h2; simp at h2
    · rw [hw] at h2; simp at h2
  · exact ⟨rfl, by simp⟩
  all_goals
    exfalso
    apply h3
    simp [hsh, hln]

/-- Witness for C1 at a concrete input. -/
theorem parse_short_cluster_witness :
    (mkBoolFlag "x").Parse [gs "-xyz"] =
      some ({ mkBoolFlag "x" with WasSpecified := true, value := .bool true },
        [gs "-yz"], none) :=
  (parse_short_cluster.1 (mkBoolFlag "x") (gs "-xyz") [] rfl (Or.inl rfl) rfl
    (by decide)).1

/-- C1 counterexample to the claim as stated: a boolean flag that was
already specified does not get its cluster token rewritten; Parse returns
the already-specified error with the first token unchanged. -/
theorem parse_short_cluster_cex :
    ({ mkBoolFlag "a" with WasSpecified := true } : Flag).NeedsExtraValue = false
    ∧ ({ mkBoolFlag "a" with WasSpecified := true } : Flag).Parse [gs "-abc"] =
        some ({ mkBoolFlag "a" with WasSpecified := true }, [gs "-abc"],
          some (.onlyOnce (gs "-a")))
    ∧ gs "-abc" ≠ gs "-bc" :=
  ⟨rfl, rfl, by decide⟩

theorem isShort_not_isLong (arg : GoStr) (h : isShort arg = true) :
    isLong arg = false := by
  unfold isShort at h
  unfold isLong
  cases h2 : startsWith (gs "--") arg
  · rfl
  · rw [h2] at h
    simp at h

/-- C3: Handles returns true exactly when the token is short-style and the
character right after the dash equals the short name, or long-style and the
suffix after the two dashes equals the long name. -/
theorem handles_iff (f : Flag) (arg : GoStr) :
    f.Handles arg = some true ↔
      ((isShort arg = true ∧ 2 ≤ arg.length ∧ (arg.take 2).drop 1 = f.Short) ∨
        (isLong arg = true ∧ arg.drop 2 = f.Long)) := by
  by_cases hs : isShort arg = true
  · have hl : isLong arg = false := isShort_not_isLong arg hs
    by_cases hlen : arg.length < 2
    · have he : f.Handles arg = none := by
        unfold Flag.Handles
        rw [hs, if_pos rfl, if_pos hlen]
      rw [he]
      constructor
      · intro h
        exact Option.noConfusion h
      · rintro (⟨-, h2, -⟩ | ⟨h1, -⟩)
        · omega
        · exact absurd h1 (by simp [hl])
    · by_cases heq : (arg.take 2).drop 1 = f.Short
      · have he : f.Handles arg = some true := by
          unfold Flag.Handles
          rw [hs, if_pos rfl, if_neg hlen, if_pos heq]
        rw [he]
        exact ⟨fun _ => Or.inl ⟨hs, by omega, heq⟩, fun _ => rfl⟩
      · have he : f.Handles arg = some false := by
          unfold Flag.Handles
          rw [hs, if_pos rfl, if_neg hlen, if_neg heq, hl]
          simp
        rw [he]
        constructor
        · intro h
          simp at h
        · rintro (⟨-, -, h3⟩ | ⟨h1, -⟩)
          · exact absurd h3 heq
          · exact absurd h1 (by simp [hl])
  · have hs2 : isShort arg = false := by
      cases h : isShort arg
      · rfl
      · exact absurd h hs
    by_cases hl : isLong arg = true
    · have he : f.Handles arg = some ((arg.drop 2) == f.Long) := by
        unfold Flag.Handles
        rw [hs2, hl]
        simp
      rw [he]
      simp only [Option.some_inj, beq_iff_eq]
      constructor
      · intro h
        exact Or.inr ⟨hl, h⟩
      · rintro (⟨h1, -⟩ | ⟨-, h2⟩)
        · exact absurd h1 hs
        · exact h2
    · have hl2 : isLong arg = false := by
        cases h : isLong arg
        · rfl
        · exact absurd h hl
      have he : f.Handles arg = some false := by
        unfold Flag.Handles
        rw [hs2, hl2]
        simp
      rw [he]
      constructor
      · intro h
        simp at h
      · rintro (⟨h1, -⟩ | ⟨h1, -⟩)
        · exact absurd h1 hs
        · exact absurd h1 hl

/-- Witness for C3 at a concrete input: a short boolean flag matches its own
short token. -/
theorem handles_iff_witness :
    (mkBoolFlag "v").Handles (gs "-v") = some true :=
  (handles_iff (mkBoolFlag "v") (gs "-v")).mpr (Or.inl ⟨rfl, by decide, rfl⟩)

/-- C10: Handles panics (models as none) on the one-character token
consisting of a single dash, and is panic-free on every token that is
either not dash-prefixed or dash-prefixed with at least two characters. -/
theorem handles_panic_domain (f : Flag) (t : GoStr)
    (h : startsWith (gs "-") t = true → 2 ≤ t.length) :
    f.Handles (gs "-") = none ∧ ∃ b, f.Handles t = some b := by
  constructor
  · rfl
  · cases t with
    | nil => exact ⟨false, rfl⟩
    | cons c t2 =>
      by_cases hd : c = '-'
      · subst hd
        cases t2 with
        | nil =>
          exfalso
          have := h (by decide)
          simp at this
        | cons c2 t3 =>
          by_cases hd2 : c2 = '-'
          · subst hd2
            exact ⟨(('-' :: '-' :: t3).drop 2) == f.Long, by
              unfold Flag.Handles
              have hs : isShort ('-' :: '-' :: t3) = false := by
                simp [isShort, startsWith, gs]
              have hl : isLong ('-' :: '-' :: t3) = true := by
                simp [isLong, startsWith, gs]
              rw [hs, hl]
              simp⟩
          · have hs : isShort ('-' :: c2 :: t3) = true := by
              simp [isShort, startsWith, gs]
              exact fun hh => hd2 hh.symm
            have hlen : ¬(('-' :: c2 :: t3) : GoStr).length < 2 := by
              simp
            unfold Flag.Handles
            rw [hs, if_pos rfl, if_neg hlen]
            by_cases heq : ((('-' :: c2 :: t3) : GoStr).take 2).drop 1 = f.Short
            · rw [if_pos heq]
              exact ⟨true, rfl⟩
            · rw [if_neg heq]
              rw [isShort_not_isLong _ hs]
              simp
      · have hs : isShort (c :: t2) = false := by
          simp [isShort, startsWith, gs]
          exact fun hh => absurd hh.symm hd
        have hl : isLong (c :: t2) = false := by
          simp [isLong, startsWith, gs]
          exact fun hh => absurd hh.symm hd
        unfold Flag.Handles
        rw [hs, hl]
        simp

/-- Witness for C10 at concrete inputs. -/
theorem handles_panic_domain_witness :
    (mkBoolFlag "a").Handles (gs "-") = none
    ∧ ∃ b, (mkBoolFlag "a").Handles (gs "hello") = some b :=
  handles_panic_domain (mkBoolFlag "a") (gs "hello") (by decide)

theorem isDecimalNumeral_stripSign (s : GoStr) :
    isDecimalNumeral s =
      (!((stripSign s).2.isEmpty) && (stripSign s).2.all Char.isDigit) := by
  unfold isDecimalNumeral stripSign
  by_cases h1 : s.take 1 = ['+']
  · simp [h1]
  · by_cases h2 : s.take 1 = ['-'] <;> simp [h1, h2]

theorem numeralVal_stripSign (s : GoStr) :
    numeralVal s =
      (if (stripSign s).1 then -(digitsVal (stripSign s).2 : Int)
        else (digitsVal (stripSign s).2 : Int)) := by
  unfold numeralVal stripSign
  by_cases h1 : s.take 1 = ['+']
  · have h2 : ¬(s.take 1 = ['-']) := by
      rw [h1]
      decide
    simp [h1, h2]
  · by_cases h2 : s.take 1 = ['-'] <;> simp [h1, h2]

theorem numeral_of_digits (s : GoStr)
    (h1 : ¬((decide ((stripSign s).2 = []) || !((stripSign s).2.all Char.isDigit)) = true)) :
    isDecimalNumeral s = true := by
  have hne : (stripSign s).2 ≠ [] := by
    intro hx
    apply h1
    rw [hx]
    rfl
  have hall : (stripSign s).2.all Char.isDigit = true := by
    cases hx : (stripSign s).2.all Char.isDigit
    · exfalso
      apply h1
      rw [hx]
      simp
    · rfl
  rw [isDecimalNumeral_stripSign s, hall]
  cases hx : (stripSign s).2 with
  | nil => exact absurd hx hne
  | cons c cs => rfl

theorem not_numeral_of_syntax (s : GoStr)
    (h1 : (decide ((stripSign s).2 = []) || !((stripSign s).2.all Char.isDigit)) = true) :
    isDecimalNumeral s = false := by
  rw [isDecimalNumeral_stripSign s]
  rw [Bool.or_eq_true] at h1
  rcases h1 with h | h
  · rw [decide_eq_true_eq] at h
    rw [h]
    rfl
  · cases hx : (stripSign s).2.all Char.isDigit
    · simp
    · rw [hx] at h
      exact Bool.noConfusion h

/-- C8 (amended): the integer converter succeeds exactly on an optionally
signed base-10 numeral whose value fits a signed 64-bit integer; on success
it assigns the parsed value, on failure it leaves the field unchanged and
reports a syntax error for non-numerals and a range error for numerals out
of the 64-bit range. -/
theorem intValueParser_characterization (m : Int) (s : GoStr) :
    ((intValueParser (.int m) s).2 = none ↔
      (isDecimalNumeral s = true ∧
        -(2 ^ 63) ≤ numeralVal s ∧ numeralVal s ≤ 2 ^ 63 - 1))
    ∧ ((intValueParser (.int m) s).2 = none →
        (intValueParser (.int m) s).1 = .int (numeralVal s))
    ∧ (∀ e, (intValueParser (.int m) s).2 = some e →
        (intValueParser (.int m) s).1 = .int m
        ∧ (isDecimalNumeral s = false → e = .intSyntax s)
        ∧ (isDecimalNumeral s = true → e = .intRange s)) := by
  have hb2 := numeralVal_stripSign s
  have hdnn : (0 : Int) ≤ (digitsVal (stripSign s).2 : Int) := Int.ofNat_nonneg _
  unfold intValueParser parseInt64
  split_ifs with h1 h2 h3 h4
  · -- syntax error: not a numeral
    have hnum : isDecimalNumeral s = false := not_numeral_of_syntax s h1
    refine ⟨⟨?_, ?_⟩, ?_, ?_⟩
    · intro h
      exact h.elim
    · intro h
      rw [hnum] at h
      exact Bool.noConfusion h.1
    · intro h
      exact h.elim
    · intro e he
      have he0 : (some (GoErr.intSyntax s) : Option GoErr) = some e := he
      rw [Option.some_inj] at he0
      exact ⟨rfl, fun _ => he0.symm,
        fun hh => by rw [hnum] at hh; exact Bool.noConfusion hh⟩
  · -- negative numeral in range
    have hnum : isDecimalNumeral s = true := numeral_of_digits s h1
    have hval : numeralVal s = -(digitsVal (stripSign s).2 : Int) := by
      rw [hb2, h2, if_pos rfl]
    refine ⟨⟨?_, ?_⟩, ?_, ?_⟩
    · intro _
      refine ⟨hnum, ?_, ?_⟩
      · rw [hval]
        omega
      · rw [hval]
        omega
    · intro _
      rfl
    · intro _
      show FlagValue.int (-(digitsVal (stripSign s).2 : Int)) = .int (numeralVal s)
      rw [hval]
    · intro e he
      exact he.elim
  · -- negative numeral out of range
    have hnum : isDecimalNumeral s = true := numeral_of_digits s h1
    have hval : numeralVal s = -(digitsVal (stripSign s).2 : Int) := by
      rw [hb2, h2, if_pos rfl]
    refine ⟨⟨?_, ?_⟩, ?_, ?_⟩
    · intro h
      exact h.elim
    · intro h
      exfalso
      apply h3
      have hx := h.2.1
      rw [hval] at hx
      omega
    · intro h
      exact h.elim
    · intro e he
      have he0 : (some (GoErr.intRange s) : Option GoErr) = some e := he
      rw [Option.some_inj] at he0
      exact ⟨rfl, fun hh => by rw [hnum] at hh; exact Bool.noConfusion hh,
        fun _ => he0.symm⟩
  · -- nonnegative numeral in range
    have hnum : isDecimalNumeral s = true := numeral_of_digits s h1
    have hval : numeralVal s = (digitsVal (stripSign s).2 : Int) := by
      rw [hb2]
      have h2f : (stripSign s).1 = false := by
        cases hx : (stripSign s).1
        · rfl
        · exact absurd hx h2
      rw [h2f]
      simp
    refine ⟨⟨?_, ?_⟩, ?_, ?_⟩
    · intro _
      refine ⟨hnum, ?_, ?_⟩
      · rw [hval]
        omega
      · rw [hval]
        omega
    · intro _
      rfl
    · intro _
      show FlagValue.int ((digitsVal (stripSign s).2 : Int)) = .int (numeralVal s)
      rw [hval]
    · intro e he
      exact he.elim
  · -- nonnegative numeral out of range
    have hnum : isDecimalNumeral s = true := numeral_of_digits s h1
    have hval : numeralVal s = (digitsVal (stripSign s).2 : Int) := by
      rw [hb2]
      have h2f : (stripSign s).1 = false := by
        cases hx : (stripSign s).1
        · rfl
        · exact absurd hx h2
      rw [h2f]
      simp
    refine ⟨⟨?_, ?_⟩, ?_, ?_⟩
    · intro h
      exact h.elim
    · intro h
      exfalso
      apply h4
      have hx := h.2.2
      rw [hval] at hx
      omega
    · intro h
      exact h.elim
    · intro e he
      have he0 : (some (GoErr.intRange s) : Option GoErr) = some e := he
      rw [Option.some_inj] at he0
      exact ⟨rfl, fun hh => by rw [hnum] at hh; exact Bool.noConfusion hh,
        fun _ => he0.symm⟩

/-- Witness for C8 at a concrete input: the converter assigns 42. -/
theorem intValueParser_characterization_witness :
    (intValueParser (.int 0) (gs "42")).1 = .int (numeralVal (gs "42")) :=
  (intValueParser_characterization 0 (gs "42")).2.1 rfl

/-- C8 counterexample to the claim as stated: a purely numeric string that
exceeds the signed 64-bit range still fails, so failure is not limited to
non-numeric input (and the converter is not of arbitrary width). -/
theorem intValueParser_range_cex :
    isDecimalNumeral (gs "9223372036854775808") = true
    ∧ (intValueParser (.int 0) (gs "9223372036854775808")).2 =
        some (.intRange (gs "9223372036854775808"))
    ∧ (intValueParser (.int 0) (gs "9223372036854775808")).1 = .int 0 :=
  ⟨rfl, rfl, rfl⟩

/-! Lemmas about trimming. -/

theorem trimLeft_length (s : GoStr) : (trimLeft s).length ≤ s.length :=
  (List.dropWhile_suffix isGoSpace).length_le

theorem trimRight_length (s : GoStr) : (trimRight s).length ≤ s.length :=
  (List.rdropWhile_prefix isGoSpace s).length_le

theorem trimSpace_length (s : GoStr) : (trimSpace s).length ≤ s.length :=
  le_trans (trimLeft_length (trimRight s)) (trimRight_length s)

theorem dropWhile_append_spaces (p : Char → Bool) (ws s : GoStr)
    (h : ∀ c ∈ ws, p c = true) :
    List.dropWhile p (ws ++ s) = List.dropWhile p s := by
  induction ws with
  | nil => rfl
  | cons c cs ih =>
    rw [List.cons_append, List.dropWhile_cons]
    rw [h c (List.mem_cons_self c cs)]
    exact ih fun c2 hc2 => h c2 (List.mem_cons_of_mem c hc2)

theorem dropWhile_append_eq (p : Char → Bool) (a b : GoStr) :
    List.dropWhile p (a ++ b) =
      if List.dropWhile p a = [] then List.dropWhile p b
      else List.dropWhile p a ++ b := by
  induction a with
  | nil => simp
  | cons c cs ih =>
    rw [List.cons_append, List.dropWhile_cons, List.dropWhile_cons]
    by_cases hc : p c = true
    · rw [hc]
      simpa using ih
    · have hc2 : p c = false := by
        cases hx : p c
        · rfl
        · exact absurd hx hc
      rw [hc2]
      simp

theorem trimLeft_append_spaces (ws s : GoStr) (h : ∀ c ∈ ws, isGoSpace c = true) :
    trimLeft (ws ++ s) = trimLeft s :=
  dropWhile_append_spaces isGoSpace ws s h

theorem trimRight_append_spaces (s ws : GoStr) (h : ∀ c ∈ ws, isGoSpace c = true) :
    trimRight (s ++ ws) = trimRight s := by
  unfold trimRight List.rdropWhile
  rw [List.reverse_append]
  rw [dropWhile_append_spaces isGoSpace ws.reverse s.reverse
    (fun c hc => h c (List.mem_reverse.mp hc))]

theorem trimRight_append_eq (a b : GoStr) :
    trimRight (a ++ b) = if trimRight b = [] then trimRight a else a ++ trimRight b := by
  unfold trimRight List.rdropWhile
  rw [List.reverse_append, dropWhile_append_eq]
  by_cases hb : List.dropWhile isGoSpace b.reverse = []
  · rw [if_pos hb, if_pos (by rw [hb]; rfl)]
  · rw [if_neg hb, if_neg (by simpa using hb)]
    rw [List.reverse_append, List.reverse_reverse]

theorem trimSpace_append_left (ws y : GoStr) (h : ∀ c ∈ ws, isGoSpace c = true) :
    trimSpace (ws ++ y) = trimSpace y := by
  unfold trimSpace
  rw [trimRight_append_eq]
  by_cases hy : trimRight y = []
  · rw [if_pos hy, hy]
    unfold trimLeft
    rw [List.dropWhile_eq_nil_iff.mpr ?hws]
    case hws =>
      intro c hc
      have := (List.rdropWhile_prefix isGoSpace ws).subset hc
      simp [h c this]
    rfl
  · rw [if_neg hy]
    exact trimLeft_append_spaces ws (trimRight y) h

theorem trimSpace_append_right (y ws : GoStr) (h : ∀ c ∈ ws, isGoSpace c = true) :
    trimSpace (y ++ ws) = trimSpace y := by
  unfold trimSpace
  rw [trimRight_append_spaces y ws h]

theorem trimSpace_idem (s : GoStr) : trimSpace (trimSpace s) = trimSpace s := by
  unfold trimSpace
  have hw : trimRight (trimRight s) = trimRight s := by
    unfold trimRight
    exact List.rdropWhile_idempotent _ _
  set w := trimRight s with hwdef
  have hsplit : List.takeWhile isGoSpace w ++ trimLeft w = w := by
    unfold trimLeft
    exact List.takeWhile_append_dropWhile _ _
  have htw : ∀ c ∈ List.takeWhile isGoSpace w, isGoSpace c = true := by
    intro c hc
    exact List.mem_takeWhile_imp hc
  have h2 : trimRight (trimLeft w) = trimLeft w := by
    have h3 : trimRight (List.takeWhile isGoSpace w ++ trimLeft w) = trimRight w := by
      rw [hsplit, hw]
    rw [trimRight_append_eq] at h3
    by_cases hz : trimRight (trimLeft w) = []
    · rw [if_pos hz] at h3
      have h4 : trimRight (List.takeWhile isGoSpace w) = [] := by
        unfold trimRight
        rw [List.rdropWhile_eq_nil_iff]
        intro c hc
        exact htw c hc
      rw [h4, hw] at h3
      have h5 : trimLeft w = [] := by
        rw [← h3]
        rfl
      rw [h5]
      rfl
    · rw [if_neg hz] at h3
      rw [hw] at h3
      conv at h3 => rhs; rw [← hsplit]
      exact List.append_cancel_left h3
  rw [h2]
  unfold trimLeft
  exact List.dropWhile_idempotent _ _

/-! Lemmas about the option regular expression matcher. -/

theorem take_wrunFrom (l : GoStr) : l.take (wrunFrom l) = l.takeWhile isWordDash := by
  induction l with
  | nil => rfl
  | cons c cs ih =>
    by_cases hc : isWordDash c = true
    · have h1 : wrunFrom (c :: cs) = wrunFrom cs + 1 := by
        unfold wrunFrom
        rw [List.takeWhile_cons, hc]
        simp
      rw [h1, List.take_succ_cons, List.takeWhile_cons, hc, if_pos rfl, ih]
    · have hc2 : isWordDash c = false := by
        cases hx : isWordDash c
        · rfl
        · exact absurd hx hc
      have h1 : wrunFrom (c :: cs) = 0 := by
        unfold wrunFrom
        rw [List.takeWhile_cons, hc2]
        rfl
      rw [h1, List.takeWhile_cons, hc2]
      simp

theorem goA_pos (s : GoStr) (r : OMatch) (h : goA s = some r) : 1 ≤ r.1 := by
  unfold goA at h
  split_ifs at h with h1 h2
  rcases ht : termLen (s.drop (1 + wrunFrom (s.drop 1))) with _ | tl <;> rw [ht] at h
  · simp at h
  · rw [Option.some_inj] at h
    subst h
    show 1 ≤ 1 + wrunFrom (s.drop 1) + tl
    omega

theorem goB_pos (s : GoStr) (r : OMatch) (h : goB s = some r) : 1 ≤ r.1 := by
  unfold goB at h
  split_ifs at h with h1
  rcases ht : termLen (s.drop (wrunFrom s)) with _ | tl <;> rw [ht] at h
  · simp at h
  · rw [Option.some_inj] at h
    subst h
    show 1 ≤ wrunFrom s + tl
    omega

theorem goC_pos (s : GoStr) (r : OMatch) (h : goC s = some r) : 1 ≤ r.1 := by
  unfold goC at h
  split_ifs at h with h1 h2
  rcases hq : qPlusRun (s.drop (wrunFrom s + 2)) with _ | lq <;> rw [hq] at h
  · simp at h
  · rw [Option.some_inj] at h
    subst h
    show 1 ≤ wrunFrom s + 2 + ((s.drop (wrunFrom s + 2)).length - lq.length) + 1 +
        (if lq.drop 1 = [] then 0 else 1)
    omega

theorem goC_g2_some (s : GoStr) (r : OMatch) (h : goC s = some r) :
    ∃ ab, r.2.2 = some ab := by
  unfold goC at h
  split_ifs at h with h1 h2
  rcases hq : qPlusRun (s.drop (wrunFrom s + 2)) with _ | lq <;> rw [hq] at h
  · simp at h
  · rw [Option.some_inj] at h
    subst h
    exact ⟨_, rfl⟩

theorem optionMatch_pos (s : GoStr) (r : OMatch) (h : optionMatch s = some r) :
    1 ≤ r.1 := by
  unfold optionMatch at h
  cases hA : goA s with
  | some rA =>
    rw [hA] at h
    rw [Option.some_inj] at h
    subst h
    exact goA_pos s _ hA
  | none =>
    rw [hA] at h
    cases hB : goB s with
    | some rB =>
      rw [hB] at h
      rw [Option.some_inj] at h
      subst h
      exact goB_pos s _ hB
    | none =>
      rw [hB] at h
      exact goC_pos s r h

theorem goA_allW (s : GoStr) (fin g1e : Nat) (g2 : Option (Nat × Nat))
    (h : goA s = some (fin, g1e, g2)) :
    ∀ c ∈ s.take g1e, isWordDash c = true := by
  unfold goA at h
  split_ifs at h with h1 h2
  rcases ht : termLen (s.drop (1 + wrunFrom (s.drop 1))) with _ | tl <;> rw [ht] at h
  · simp at h
  · rw [Option.some_inj] at h
    have hg : 1 + wrunFrom (s.drop 1) = g1e := congrArg (fun x : OMatch => x.2.1) h
    intro c hc
    rw [← hg] at hc
    rw [List.take_add] at hc
    rcases List.mem_append.mp hc with hc1 | hc1
    · rw [h1] at hc1
      simp only [List.mem_singleton] at hc1
      subst hc1
      rfl
    · rw [take_wrunFrom] at hc1
      exact List.mem_takeWhile_imp hc1

theorem goB_allW (s : GoStr) (fin g1e : Nat) (g2 : Option (Nat × Nat))
    (h : goB s = some (fin, g1e, g2)) :
    ∀ c ∈ s.take g1e, isWordDash c = true := by
  unfold goB at h
  split_ifs at h with h1
  rcases ht : termLen (s.drop (wrunFrom s)) with _ | tl <;> rw [ht] at h
  · simp at h
  · rw [Option.some_inj] at h
    have hg : wrunFrom s = g1e := congrArg (fun x : OMatch => x.2.1) h
    intro c hc
    rw [← hg] at hc
    rw [take_wrunFrom] at hc
    exact List.mem_takeWhile_imp hc

theorem optionMatch_g2_none_allW (s : GoStr) (fin g1e : Nat)
    (h : optionMatch s = some (fin, g1e, none)) :
    ∀ c ∈ s.take g1e, isWordDash c = true := by
  unfold optionMatch at h
  cases hA : goA s with
  | some rA =>
    rw [hA] at h
    rw [Option.some_inj] at h
    subst h
    exact goA_allW s fin g1e none hA
  | none =>
    rw [hA] at h
    cases hB : goB s with
    | some rB =>
      rw [hB] at h
      rw [Option.some_inj] at h
      subst h
      exact goB_allW s fin g1e none hB
    | none =>
      rw [hB] at h
      obtain ⟨ab, hab⟩ := goC_g2_some s _ h
      exact absurd hab (by simp)

theorem startsWith_mem (p w : GoStr) (c : Char) (h : startsWith p w = true)
    (hc : c ∈ p) : c ∈ w := by
  induction p generalizing w with
  | nil => exact absurd hc (List.not_mem_nil c)
  | cons p0 ps ih =>
    cases w with
    | nil => exact Bool.noConfusion h
    | cons w0 ws =>
      simp only [startsWith, Bool.and_eq_true, beq_iff_eq] at h
      rcases List.mem_cons.mp hc with rfl | hc2
      · rw [h.1]
        exact List.mem_cons_self w0 ws
      · exact List.mem_cons_of_mem w0 (ih ws h.2 hc2)

theorem parseTagLoopF_fuel (n : Nat) : ∀ (m : Nat) (f : flag) (t : GoStr),
    t.length < n → t.length < m → parseTagLoopF n f t = parseTagLoopF m f t := by
  induction n with
  | zero =>
    intro m f t h1 h2
    omega
  | succ n ih =>
    intro m f t h1 h2
    cases m with
    | zero => omega
    | succ m =>
      simp only [parseTagLoopF]
      by_cases he : trimSpace t = []
      · rw [if_pos he, if_pos he]
      · rw [if_neg he, if_neg he]
        cases hm : optionMatch (trimSpace t) with
        | none => rfl
        | some r =>
          obtain ⟨fin, g1e, g2⟩ := r
          have hfin : 1 ≤ fin := optionMatch_pos _ _ hm
          have hlen5 : 1 ≤ (trimSpace t).length := by
            cases hx : trimSpace t with
            | nil => exact absurd hx he
            | cons c cs => simp
          have h3 := trimSpace_length t
          have hrest : ((trimSpace t).drop fin).length < n ∧
              ((trimSpace t).drop fin).length < m := by
            rw [List.length_drop]
            omega
          cases g2 with
          | none =>
            dsimp only
            split_ifs <;> first | rfl | exact ih m _ _ hrest.1 hrest.2
          | some ab =>
            obtain ⟨a, b⟩ := ab
            dsimp only
            split_ifs <;> first | rfl | exact ih m _ _ hrest.1 hrest.2

theorem parseTagLoopF_trim (n : Nat) (f : flag) (t : GoStr) :
    parseTagLoopF (n + 1) f t = parseTagLoopF (n + 1) f (trimSpace t) := by
  simp only [parseTagLoopF, trimSpace_idem]

/-- C7 (amended): whitespace at the start and end of the whole annotation
string is ignored, and, at every step of the consumption loop (hence after
every separating comma), leading whitespace of the remaining string is
ignored. Whitespace between a token and its following comma is not ignored
(see the counterexample). -/
theorem parseTag_whitespace :
    (∀ (ws1 ws2 tag : GoStr),
      (∀ c ∈ ws1, isGoSpace c = true) → (∀ c ∈ ws2, isGoSpace c = true) →
      parseTag (ws1 ++ tag ++ ws2) = parseTag tag)
    ∧ (∀ (f : flag) (ws rest : GoStr), (∀ c ∈ ws, isGoSpace c = true) →
      parseTagLoopF ((ws ++ rest).length + 1) f (ws ++ rest) =
        parseTagLoopF (rest.length + 1) f rest) := by
  have key : ∀ (f : flag) (a b : GoStr), trimSpace a = trimSpace b →
      parseTagLoopF (a.length + 1) f a = parseTagLoopF (b.length + 1) f b := by
    intro f a b hab
    rw [parseTagLoopF_trim a.length f a, parseTagLoopF_trim b.length f b, hab]
    have ha := trimSpace_length a
    rw [hab] at ha
    have hb := trimSpace_length b
    exact parseTagLoopF_fuel _ _ _ _ (by omega) (by omega)
  constructor
  · intro ws1 ws2 tag h1 h2
    unfold parseTag
    apply key
    rw [trimSpace_append_right (ws1 ++ tag) ws2 h2, trimSpace_append_left ws1 tag h1]
  · intro f ws rest h
    apply key
    exact trimSpace_append_left ws rest h

/-- Witness for C7 at a concrete input: leading and trailing blanks are
ignored. -/
theorem parseTag_whitespace_witness :
    parseTag (gs " " ++ gs "-n" ++ gs " ") = parseTag (gs "-n") :=
  parseTag_whitespace.1 (gs " ") (gs " ") (gs "-n") (by decide) (by decide)

/-- C7 counterexample to the claim as stated: whitespace inserted before a
separating comma changes the result from success to a syntax failure. -/
theorem parseTag_space_before_comma_cex :
    parseTag (gs "-n , --name") = .error (.noMatch (gs "-n , --name"))
    ∧ parseTag (gs "-n, --name") = .ok ⟨[gs "n"], [gs "name"], [], [], false, false⟩
    ∧ parseTag (gs "-n , --name") ≠ parseTag (gs "-n, --name") :=
  ⟨rfl, rfl, by
    intro h
    have h2 : (Except.error (TagError.noMatch (gs "-n , --name")) : Except TagError flag) =
        .ok ⟨[gs "n"], [gs "name"], [], [], false, false⟩ := h
    exact Except.noConfusion h2⟩

/-- C9: parsing the same annotation string twice produces descriptor-equal
results in every component. -/
theorem parseTag_deterministic (tag : GoStr) (d1 d2 : flag)
    (h1 : parseTag tag = .ok d1) (h2 : parseTag tag = .ok d2) :
    d1.Short = d2.Short ∧ d1.Long = d2.Long ∧ d1.Description = d2.Description
    ∧ d1.MutexGroup = d2.MutexGroup ∧ d1.Accumulate = d2.Accumulate
    ∧ d1.Obligatory = d2.Obligatory := by
  rw [h1] at h2
  injection h2 with h
  subst h
  exact ⟨rfl, rfl, rfl, rfl, rfl, rfl⟩

/-- Witness for C9 at the spec sample annotation, parsed twice. -/
theorem parseTag_deterministic_witness :
    sampleDescriptor.Short = sampleDescriptor.Short
    ∧ sampleDescriptor.Long = sampleDescriptor.Long
    ∧ sampleDescriptor.Description = sampleDescriptor.Description
    ∧ sampleDescriptor.MutexGroup = sampleDescriptor.MutexGroup
    ∧ sampleDescriptor.Accumulate = sampleDescriptor.Accumulate
    ∧ sampleDescriptor.Obligatory = sampleDescriptor.Obligatory :=
  parseTag_deterministic (gs "-n, --name, description='User name', obligatory")
    sampleDescriptor sampleDescriptor rfl rfl

theorem parseTagLoopF_char (n : Nat) : ∀ (f : flag) (t : GoStr), t.length < n →
    ((∃ d, parseTagLoopF n f t = .ok d) ↔ allRecognizedF n t = true)
    ∧ (∀ e, parseTagLoopF n f t = .error e →
        (∃ w, e = .unknownOption w ∧ startsWith (gs "-") w = false ∧
          startsWith (gs "description=") w = false ∧
          startsWith (gs "mutexgroup=") w = false ∧
          w ≠ gs "accumulate" ∧ w ≠ gs "obligatory")
        ∨ (∃ rem, e = .noMatch rem ∧ optionMatch rem = none ∧ rem ≠ [])) := by
  induction n with
  | zero =>
    intro f t h
    omega
  | succ n ih =>
    intro f t hlen
    simp only [parseTagLoopF, allRecognizedF]
    by_cases he : trimSpace t = []
    · rw [if_pos he, if_pos he]
      refine ⟨⟨fun _ => rfl, fun _ => ⟨f, rfl⟩⟩, fun e hee => Except.noConfusion hee⟩
    · rw [if_neg he, if_neg he]
      cases hm : optionMatch (trimSpace t) with
      | none =>
        refine ⟨⟨?_, ?_⟩, ?_⟩
        · rintro ⟨d, hd⟩
          exact Except.noConfusion hd
        · intro hb
          exact Bool.noConfusion hb
        · intro e hee
          injection hee with h2
          exact Or.inr ⟨trimSpace t, h2.symm, hm, he⟩
      | some r =>
        obtain ⟨fin, g1e, g2⟩ := r
        dsimp only
        have hlen5 : 1 ≤ (trimSpace t).length := by
          cases hx : trimSpace t with
          | nil => exact absurd hx he
          | cons c cs => simp
        have hfin : 1 ≤ fin := optionMatch_pos _ _ hm
        have h3 := trimSpace_length t
        have hrest : ((trimSpace t).drop fin).length < n := by
          rw [List.length_drop]
          omega
        by_cases hb1 : startsWith (gs "--") ((trimSpace t).take g1e) = true
        · rw [if_pos hb1]
          have hro : recognizedOption ((trimSpace t).take g1e) = true := by
            unfold recognizedOption
            rw [hb1]
            rfl
          rw [hro, Bool.true_and]
          exact ih _ _ hrest
        · rw [if_neg hb1]
          by_cases hb2 : startsWith (gs "-") ((trimSpace t).take g1e) = true
          · rw [if_pos hb2]
            have hro : recognizedOption ((trimSpace t).take g1e) = true := by
              unfold recognizedOption
              rw [hb2]
              simp
            rw [hro, Bool.true_and]
            exact ih _ _ hrest
          · rw [if_neg hb2]
            by_cases hb3 : startsWith (gs "description=") ((trimSpace t).take g1e) = true
            · rw [if_pos hb3]
              cases g2 with
              | none =>
                exfalso
                have hallW := optionMatch_g2_none_allW _ _ _ hm
                have hmem : '=' ∈ (trimSpace t).take g1e :=
                  startsWith_mem _ _ '=' hb3 (by decide)
                exact absurd (hallW '=' hmem) (by decide)
              | some ab =>
                obtain ⟨a, b⟩ := ab
                dsimp only
                have hro : recognizedOption ((trimSpace t).take g1e) = true := by
                  unfold recognizedOption
                  rw [hb3]
                  simp
                rw [hro, Bool.true_and]
                exact ih _ _ hrest
            · rw [if_neg hb3]
              by_cases hb4 : startsWith (gs "mutexgroup=") ((trimSpace t).take g1e) = true
              · rw [if_pos hb4]
                cases g2 with
                | none =>
                  exfalso
                  have hallW := optionMatch_g2_none_allW _ _ _ hm
                  have hmem : '=' ∈ (trimSpace t).take g1e :=
                    startsWith_mem _ _ '=' hb4 (by decide)
                  exact absurd (hallW '=' hmem) (by decide)
                | some ab =>
                  obtain ⟨a, b⟩ := ab
                  dsimp only
                  have hro : recognizedOption ((trimSpace t).take g1e) = true := by
                    unfold recognizedOption
                    rw [hb4]
                    simp
                  rw [hro, Bool.true_and]
                  exact ih _ _ hrest
              · rw [if_neg hb4]
                by_cases hb5 : (trimSpace t).take g1e = gs "accumulate"
                · rw [if_pos hb5]
                  have hro : recognizedOption ((trimSpace t).take g1e) = true := by
                    unfold recognizedOption
                    rw [hb5]
                    simp
                  rw [hro, Bool.true_and]
                  exact ih _ _ hrest
                · rw [if_neg hb5]
                  by_cases hb6 : (trimSpace t).take g1e = gs "obligatory"
                  · rw [if_pos hb6]
                    have hro : recognizedOption ((trimSpace t).take g1e) = true := by
                      unfold recognizedOption
                      rw [hb6]
                      simp
                    rw [hro, Bool.true_and]
                    exact ih _ _ hrest
                  · rw [if_neg hb6]
                    have hb1f : startsWith (gs "--") ((trimSpace t).take g1e) = false := by
                      cases hx : startsWith (gs "--") ((trimSpace t).take g1e)
                      · rfl
                      · exact absurd hx hb1
                    have hb2f : startsWith (gs "-") ((trimSpace t).take g1e) = false := by
                      cases hx : startsWith (gs "-") ((trimSpace t).take g1e)
                      · rfl
                      · exact absurd hx hb2
                    have hb3f : startsWith (gs "description=") ((trimSpace t).take g1e) = false := by
                      cases hx : startsWith (gs "description=") ((trimSpace t).take g1e)
                      · rfl
                      · exact absurd hx hb3
                    have hb4f : startsWith (gs "mutexgroup=") ((trimSpace t).take g1e) = false := by
                      cases hx : startsWith (gs "mutexgroup=") ((trimSpace t).take g1e)
                      · rfl
                      · exact absurd hx hb4
                    have hro : recognizedOption ((trimSpace t).take g1e) = false := by
                      unfold recognizedOption
                      rw [hb1f, hb2f, hb3f, hb4f,
                        beq_eq_false_iff_ne.mpr hb5, beq_eq_false_iff_ne.mpr hb6]
                      rfl
                    refine ⟨⟨?_, ?_⟩, ?_⟩
                    · rintro ⟨d, hd⟩
                      exact Except.noConfusion hd
                    · intro hb
                      rw [hro] at hb
                      exact Bool.noConfusion hb
                    · intro e hee
                      injection hee with h2
                      exact Or.inl ⟨(trimSpace t).take g1e, h2.symm,
                        hb2f, hb3f, hb4f, hb5, hb6⟩

/-- C6: parseTag succeeds exactly when every leading token is matched by the
grammar and recognized by the dispatch; a failure is either an unknown-option
error naming a bare token that is none of the recognized keywords, or a
no-match error naming the nonempty remainder at which the regular expression
fails. -/
theorem parseTag_error_characterization (tag : GoStr) :
    ((∃ d, parseTag tag = .ok d) ↔ allRecognized tag = true)
    ∧ (∀ e, parseTag tag = .error e →
        (∃ w, e = .unknownOption w ∧ startsWith (gs "-") w = false ∧
          startsWith (gs "description=") w = false ∧
          startsWith (gs "mutexgroup=") w = false ∧
          w ≠ gs "accumulate" ∧ w ≠ gs "obligatory")
        ∨ (∃ rem, e = .noMatch rem ∧ optionMatch rem = none ∧ rem ≠ [])) :=
  parseTagLoopF_char (tag.length + 1) ⟨[], [], [], [], false, false⟩ tag
    (Nat.lt_succ_self _)

/-- Witness for C6 at a concrete annotation whose tokens are all
recognized. -/
theorem parseTag_error_characterization_witness :
    ∃ d, parseTag (gs "-v, --verbose, accumulate") = .ok d :=
  (parseTag_error_characterization (gs "-v, --verbose, accumulate")).1.mpr rfl

end Goptions
